import Mathlib

/-!
Verification development for the Bloomberg Tax IRC scraper
(`src/Scrapers/irc_scraper.py`, class `IRCCodeScraper`).

The scraper is a sequential, resumable crawler over the IRC table of
contents.  We embed its observable behaviour shallowly:

* pure string manipulation (`in` substring tests, name sanitisation) is
  translated character-by-character;
* the network is an environment function `Env.pages : String → Option Page`
  giving, for each URL, the page `_make_request` would ultimately return
  (`none` = all retries exhausted); the retry loop of `_make_request`
  itself is modelled separately, at attempt granularity, by `mrGo`;
* mutable scraper state (`completed_sections`, the persisted
  `scraper_progress.json`, written section files) is threaded explicitly
  as an `SState`; every operation additionally returns the list of
  observable events (fetches, skips, file saves, completion marks,
  tree appends) it performed, in order;
* the external content extractor (`irc_parser.IRCSectionParser`), the
  section-number regex and the "(Sections X to Y)" range regex are not
  part of this repository's crawling logic under scrutiny; they are
  abstracted as opaque environment functions (`Env.payload`,
  `Env.numberOf`, `Env.secRange`) — no claim depends on their values;
* the cooperative pause flag (`should_pause`, set asynchronously by a
  signal handler) is modelled by an optional pause time `Env.pauseAt`:
  the flag reads true once the number of issued fetches reaches it.

All definitions are computable, so concrete runs can be decided by `decide`.
-/

/-- Boolean test: the first list is a prefix of the second
(character-level helper for Python's `in` on strings). -/
def listPrefixOf : List Char → List Char → Bool
  | [], _ => true
  | _ :: _, [] => false
  | a :: as, b :: bs => a == b && listPrefixOf as bs

/-- Boolean substring test on char lists: Python's `pat in s`. -/
def listHasSub (pat : List Char) : List Char → Bool
  | [] => listPrefixOf pat []
  | c :: rest => listPrefixOf pat (c :: rest) || listHasSub pat rest

/-- Python's `pat in s` on strings. -/
def containsStr (pat s : String) : Bool :=
  listHasSub pat.data s.data

/-- Boolean membership of a string in a list (Python `url in completed_sections`). -/
def memB (u : String) : List String → Bool
  | [] => false
  | v :: r => u == v || memB u r

/-- A raw anchor on a fetched TOC page: its visible text and `href`
attribute, as consumed by `_extract_links_and_info`. -/
structure RawLink where
  text : String
  href : String
deriving DecidableEq, Repr

/-- A fetched page, reduced to the anchors `_extract_links_and_info`
iterates over.  Leaf (section) pages also have this type; their parsed
content is abstracted by `Env.payload`. -/
structure Page where
  links : List RawLink
deriving DecidableEq, Repr

/-- The link-info dict built by `_extract_links_and_info`:
`{'title': text, 'url': full_url, 'sections': range-or-None}`. -/
structure LinkInfo where
  title : String
  url : String
  range : Option (String × String)
deriving DecidableEq, Repr

/-- The content dict returned for one scraped leaf: the external parser's
output (`payload`, abstracted) updated with the link info
(`content.update(section_info)` copies `url`, `title`, `sections`). -/
structure SectionData where
  payload : String
  url : String
  title : String
  range : Option (String × String)
deriving DecidableEq, Repr

/-- Result of `scrape_section`: the skip marker `{'skipped': True,'url':u}`
or the content dict; `none` models the `return None` on fetch failure. -/
inductive SecResult where
  | skipped (url : String)
  | content (d : SectionData)
deriving DecidableEq, Repr

/-- Contents of a file written by the scraper: a section file
(`section_{n}.json`) or a chapter summary (`_chapter_summary.json`). -/
inductive FileC where
  | sec (d : SectionData)
  | chapSummary
deriving DecidableEq, Repr

/-- Observable events of a run, in program order: `fetch` = one call to
`_make_request`; `skip` = the already-completed log + skip marker;
`save` = `_save_section_file` writing the given path; `mark` =
`_mark_completed` (add to `completed_sections` + synchronous rewrite of
`scraper_progress.json`); `append` = a section dict appended to some
`'sections'` list of the in-memory tree; `summary` = `_save_chapter_summary`. -/
inductive Event where
  | fetch (url : String)
  | skip (url : String)
  | save (path : String)
  | mark (url : String)
  | append (url : String)
  | summary (path : String)
deriving DecidableEq, Repr

/-- Environment of a run: the site, the abstracted external helpers, the
configuration, and the time at which the pause signal (if any) arrives. -/
structure Env where
  /-- What `_make_request url` ultimately returns: `none` models retries
  exhausted (timeout / connection error / non-2xx on every attempt). -/
  pages : String → Option Page
  /-- Abstracts `_extract_sections_range` (regex on the link text). -/
  secRange : String → Option (String × String)
  /-- Abstracts the section-number extraction regex of `scrape_section`
  (a function of the URL and the title). -/
  numberOf : String → String → String
  /-- Abstracts `_parse_section_content` (external `IRCSectionParser`). -/
  payload : String → String
  /-- `output_dir` of the scraper. -/
  outputDir : String
  /-- The pause flag reads true once the fetch count reaches this value;
  `none` = no pause is ever requested. -/
  pauseAt : Option Nat

/-- Mutable scraper state: the in-memory `completed_sections` set, the
persisted contents of `scraper_progress.json` (`progressFile`), the files
written so far (later writes shadow earlier ones at the same path), and
the fetch count (`time`), which drives the pause-flag model. -/
structure SState where
  completed : List String
  progressFile : List String
  files : List (String × FileC)
  time : Nat
deriving DecidableEq, Repr

/-- Reading the pause flag `self.should_pause`. -/
def shouldPause (env : Env) (s : SState) : Bool :=
  match env.pauseAt with
  | none => false
  | some t => decide (t ≤ s.time)

/-- State effect of one `_make_request` call (the fetch itself). -/
def bump (s : SState) : SState :=
  { s with time := s.time + 1 }

/-- `_mark_completed`: add to the in-memory set (a no-op when already
present, as for a Python set), then synchronously overwrite
`scraper_progress.json` with the full set. -/
def markCompleted (url : String) (s : SState) : SState :=
  if memB url s.completed then { s with progressFile := s.completed }
  else { s with completed := s.completed ++ [url],
                progressFile := s.completed ++ [url] }

/-- Write one file, shadowing any previous content at that path. -/
def writeFile (p : String) (c : FileC) (s : SState) : SState :=
  { s with files := (p, c) :: s.files }

/-- Read a file back (most recent write at the path wins). -/
def fsRead (p : String) : List (String × FileC) → Option FileC
  | [] => none
  | (q, c) :: r => if q == p then some c else fsRead p r

/-- Python's `\w` on ASCII input: alphanumeric or underscore. -/
def isWordChar (c : Char) : Bool :=
  c.isAlphanum || c == '_'

/-- Python's `\s` / `str.strip` whitespace, on ASCII input. -/
def isPySpace (c : Char) : Bool :=
  c == ' ' || c == '\t' || c == '\n' || c == '\r' || c == '\x0b' || c == '\x0c'

/-- Characters kept by `re.sub(r'[^\w\s-]', '', name)`. -/
def keepChar (c : Char) : Bool :=
  isWordChar c || isPySpace c || c == '-'

/-- `str.strip()`: drop leading and trailing whitespace. -/
def stripWs (l : List Char) : List Char :=
  ((l.dropWhile isPySpace).reverse.dropWhile isPySpace).reverse

/-- `.replace(' ', '_')` on one character. -/
def spaceToUnderscore (c : Char) : Char :=
  if c == ' ' then '_' else c

/-- The name-cleaning pipeline of `_save_section_file` /
`_save_chapter_summary`:
`re.sub(r'[^\w\s-]', '', name).strip().replace(' ', '_')[:50]`. -/
def cleanChars (l : List Char) : List Char :=
  (((stripWs (l.filter keepChar)).map spaceToUnderscore).take 50)

/-- String-level wrapper of `cleanChars`. -/
def sanitizeName (name : String) : String :=
  String.mk (cleanChars name.data)

/-- The sanitisation the claim text describes (for comparison with the
code's `sanitizeName`): remove every character that is not alphanumeric,
space, or hyphen; collapse spaces to underscores; truncate to 50. -/
def sanitizeClaimed (name : String) : String :=
  String.mk (((name.data.filter
    (fun c => c.isAlphanum || c == ' ' || c == '-')).map spaceToUnderscore).take 50)

/-- Path of a leaf's JSON file:
`{output_dir}/{subtitle_clean}/{chapter_clean}/section_{number}.json`. -/
def sectionPath (outDir subN chapN num : String) : String :=
  outDir ++ "/" ++ sanitizeName subN ++ "/" ++ sanitizeName chapN ++
    "/section_" ++ num ++ ".json"

/-- Path of a chapter summary file. -/
def summaryPath (outDir subN chapN : String) : String :=
  outDir ++ "/" ++ sanitizeName subN ++ "/" ++ sanitizeName chapN ++
    "/_chapter_summary.json"

/-- `_save_section_file`: clean the names, build the nested path
(directories are created implicitly in this flat-path model) and write
the content, overwriting any existing file there. -/
def save_section_file (env : Env) (content : SectionData)
    (subN chapN num : String) (s : SState) : SState × List Event :=
  let p := sectionPath env.outputDir subN chapN num
  (writeFile p (FileC.sec content) s, [Event.save p])

/-- `_save_chapter_summary`. -/
def save_chapter_summary (env : Env) (subN chapN : String) (s : SState) :
    SState × List Event :=
  let p := summaryPath env.outputDir subN chapN
  (writeFile p FileC.chapSummary s, [Event.summary p])

/-- The boilerplate deny-list of `_extract_links_and_info`. -/
def denyList : List String :=
  ["Bloomberg", "Log In", "About Us", "Contact",
   "Copyright", "Terms", "Privacy", "Request"]

/-- Base URL of the scraper. -/
def baseUrl : String := "https://irc.bloombergtax.com"

/-- The `is_irc_link` test of `_extract_links_and_info`. -/
def isIrcLink (href : String) : Bool :=
  containsStr "/public/uscode/" href &&
    (containsStr "subtitle-" href || containsStr "chapter-" href ||
     containsStr "subchapter-" href || containsStr "part-" href ||
     containsStr "section_" href)

/-- One anchor through the filters of `_extract_links_and_info`:
drop short/boilerplate/external/non-hierarchy links, join relative hrefs
onto the base URL (`urljoin` modelled for absolute-path hrefs), and attach
the optional section-range annotation. -/
def linkOfRaw (env : Env) (r : RawLink) : Option LinkInfo :=
  if r.text.data.length < 5 then none
  else if (denyList.map (fun d => containsStr d r.text)).any id then none
  else if containsStr "http" (String.mk (r.href.data.take 4)) &&
      !containsStr "bloombergtax.com" r.href then none
  else if !isIrcLink r.href then none
  else
    let full := if containsStr "http" (String.mk (r.href.data.take 4))
      then r.href else baseUrl ++ r.href
    some { title := r.text, url := full, range := env.secRange r.text }

/-- `_extract_links_and_info` over a whole page. -/
def extractLinks (env : Env) (p : Page) : List LinkInfo :=
  p.links.filterMap (linkOfRaw env)

/-- `scrape_section`: skip if already completed; fetch (returning `none`
to the caller on terminal fetch failure); build the content dict; save
the section file when both folder names are non-empty; mark completed. -/
def scrape_section (env : Env) (url : String) (info : LinkInfo)
    (subN chapN : String) (s : SState) :
    Option SecResult × SState × List Event :=
  if memB url s.completed then
    (some (SecResult.skipped url), s, [Event.skip url])
  else
    match env.pages url with
    | none => (none, bump s, [Event.fetch url])
    | some _ =>
      let d : SectionData :=
        { payload := env.payload url, url := info.url,
          title := info.title, range := info.range }
      let num := env.numberOf url info.title
      if subN != "" && chapN != "" then
        let (s1, d1) := save_section_file env d subN chapN num (bump s)
        (some (SecResult.content d), markCompleted url s1,
          Event.fetch url :: d1 ++ [Event.mark url])
      else
        (some (SecResult.content d), markCompleted url (bump s),
          [Event.fetch url, Event.mark url])

/-- How a child link is routed by the `if`/`elif` keyword chains of the
orchestrator methods; each level's chain uses a subset of these. -/
inductive Klass where
  | subch
  | part
  | subpart
  | leaf
  | other
deriving DecidableEq, Repr

/-- Leaf test shared by `scrape_part` (both loops):
`'Sec.' in title or 'section' in url.lower()`. -/
def isLeafLink (title url : String) : Bool :=
  containsStr "Sec." title || containsStr "section" url.toLower

/-- The `if`/`elif` chain of the `scrape_part` links loop:
`'Subpart' in title` first, then the leaf test, else ignore. -/
def classifyAtPart (title url : String) : Klass :=
  if containsStr "Subpart" title then Klass.subpart
  else if isLeafLink title url then Klass.leaf
  else Klass.other

/-- The `if`/`elif` chain of the `scrape_subchapter` loop:
`'Part' in title` first, then `'Sec.' in title`, else ignore. -/
def classifyAtSubch (title : String) : Klass :=
  if containsStr "Part" title then Klass.part
  else if containsStr "Sec." title then Klass.leaf
  else Klass.other

/-- The `if`/`elif` chain of the `scrape_chapter` loop:
`'Subchapter'` first, then `'Part'`, then `'Sec.'`, else ignore. -/
def classifyAtChapter (title : String) : Klass :=
  if containsStr "Subchapter" title then Klass.subch
  else if containsStr "Part" title then Klass.part
  else if containsStr "Sec." title then Klass.leaf
  else Klass.other

/-- Accumulator of `scrape_part`: the growing `sections` and `subparts`
lists of `part_data`. -/
structure PartAcc where
  sections : List SectionData
  subparts : List LinkInfo
deriving DecidableEq, Repr

/-- Return value of `scrape_part`: the input metadata, plus the children
lists when the body ran (`none` children model the early
`return part_info`, which leaves the input dict without those keys). -/
structure PartData where
  info : LinkInfo
  sections : Option (List SectionData)
  subparts : Option (List LinkInfo)
deriving DecidableEq, Repr

/-- Inner loop of the subpart branch of `scrape_part`: iterate the links
of the subpart page, scraping every leaf-classified one.  Note this loop
performs no pause check (the source has none). -/
def subpartSections (env : Env) (subN chapN : String) :
    List LinkInfo → PartAcc → SState → PartAcc × SState × List Event
  | [], acc, s => (acc, s, [])
  | l :: rest, acc, s =>
    if isLeafLink l.title l.url then
      let r := scrape_section env l.url l subN chapN s
      match r.1 with
      | some (SecResult.content d) =>
        let t := subpartSections env subN chapN rest
          { acc with sections := acc.sections ++ [d] } r.2.1
        (t.1, t.2.1, r.2.2 ++ Event.append d.url :: t.2.2)
      | _ =>
        let t := subpartSections env subN chapN rest acc r.2.1
        (t.1, t.2.1, r.2.2 ++ t.2.2)
    else
      subpartSections env subN chapN rest acc s

/-- Links loop of `scrape_part`: pause check first, then the
subpart/leaf `elif` chain. -/
def partLoop (env : Env) (subN chapN : String) :
    List LinkInfo → PartAcc → SState → PartAcc × SState × List Event
  | [], acc, s => (acc, s, [])
  | l :: rest, acc, s =>
    if shouldPause env s then (acc, s, [])
    else
      match classifyAtPart l.title l.url with
      | Klass.subpart =>
        match env.pages l.url with
        | none =>
          let t := partLoop env subN chapN rest acc (bump s)
          (t.1, t.2.1, Event.fetch l.url :: t.2.2)
        | some p =>
          let u := subpartSections env subN chapN (extractLinks env p) acc (bump s)
          let acc2 := { u.1 with subparts := u.1.subparts ++ [l] }
          let t := partLoop env subN chapN rest acc2 u.2.1
          (t.1, t.2.1, Event.fetch l.url :: u.2.2 ++ t.2.2)
      | Klass.leaf =>
        let r := scrape_section env l.url l subN chapN s
        match r.1 with
        | some (SecResult.content d) =>
          let t := partLoop env subN chapN rest
            { acc with sections := acc.sections ++ [d] } r.2.1
          (t.1, t.2.1, r.2.2 ++ Event.append d.url :: t.2.2)
        | _ =>
          let t := partLoop env subN chapN rest acc r.2.1
          (t.1, t.2.1, r.2.2 ++ t.2.2)
      | _ => partLoop env subN chapN rest acc s

/-- `scrape_part`: pause check at entry, fetch the part page (aborting
this unit only on terminal fetch failure), then the links loop. -/
def scrape_part (env : Env) (url : String) (info : LinkInfo)
    (subN chapN : String) (s : SState) : PartData × SState × List Event :=
  if shouldPause env s then (⟨info, none, none⟩, s, [])
  else
    match env.pages url with
    | none => (⟨info, none, none⟩, bump s, [Event.fetch url])
    | some p =>
      let t := partLoop env subN chapN (extractLinks env p) ⟨[], []⟩ (bump s)
      (⟨info, some t.1.sections, some t.1.subparts⟩, t.2.1,
        Event.fetch url :: t.2.2)

/-- Accumulator of `scrape_subchapter`. -/
structure SubchAcc where
  parts : List PartData
  sections : List SectionData
deriving DecidableEq, Repr

/-- Return value of `scrape_subchapter` (children `none` on early return). -/
structure SubchData where
  info : LinkInfo
  parts : Option (List PartData)
  sections : Option (List SectionData)
deriving DecidableEq, Repr

/-- Links loop of `scrape_subchapter`. -/
def subchLoop (env : Env) (subN chapN : String) :
    List LinkInfo → SubchAcc → SState → SubchAcc × SState × List Event
  | [], acc, s => (acc, s, [])
  | l :: rest, acc, s =>
    if shouldPause env s then (acc, s, [])
    else
      match classifyAtSubch l.title with
      | Klass.part =>
        let r := scrape_part env l.url l subN chapN s
        let t := subchLoop env subN chapN rest
          { acc with parts := acc.parts ++ [r.1] } r.2.1
        (t.1, t.2.1, r.2.2 ++ t.2.2)
      | Klass.leaf =>
        let r := scrape_section env l.url l subN chapN s
        match r.1 with
        | some (SecResult.content d) =>
          let t := subchLoop env subN chapN rest
            { acc with sections := acc.sections ++ [d] } r.2.1
          (t.1, t.2.1, r.2.2 ++ Event.append d.url :: t.2.2)
        | _ =>
          let t := subchLoop env subN chapN rest acc r.2.1
          (t.1, t.2.1, r.2.2 ++ t.2.2)
      | _ => subchLoop env subN chapN rest acc s

/-- `scrape_subchapter`. -/
def scrape_subchapter (env : Env) (url : String) (info : LinkInfo)
    (subN chapN : String) (s : SState) : SubchData × SState × List Event :=
  if shouldPause env s then (⟨info, none, none⟩, s, [])
  else
    match env.pages url with
    | none => (⟨info, none, none⟩, bump s, [Event.fetch url])
    | some p =>
      let t := subchLoop env subN chapN (extractLinks env p) ⟨[], []⟩ (bump s)
      (⟨info, some t.1.parts, some t.1.sections⟩, t.2.1,
        Event.fetch url :: t.2.2)

/-- Accumulator of `scrape_chapter`. -/
structure ChapAcc where
  subchapters : List SubchData
  parts : List PartData
  sections : List SectionData
deriving DecidableEq, Repr

/-- Return value of `scrape_chapter` (children `none` on early return). -/
structure ChapData where
  info : LinkInfo
  subchapters : Option (List SubchData)
  parts : Option (List PartData)
  sections : Option (List SectionData)
deriving DecidableEq, Repr

/-- Links loop of `scrape_chapter`; the chapter name passed down is the
chapter's own title. -/
def chapLoop (env : Env) (subN chapN : String) :
    List LinkInfo → ChapAcc → SState → ChapAcc × SState × List Event
  | [], acc, s => (acc, s, [])
  | l :: rest, acc, s =>
    if shouldPause env s then (acc, s, [])
    else
      match classifyAtChapter l.title with
      | Klass.subch =>
        let r := scrape_subchapter env l.url l subN chapN s
        let t := chapLoop env subN chapN rest
          { acc with subchapters := acc.subchapters ++ [r.1] } r.2.1
        (t.1, t.2.1, r.2.2 ++ t.2.2)
      | Klass.part =>
        let r := scrape_part env l.url l subN chapN s
        let t := chapLoop env subN chapN rest
          { acc with parts := acc.parts ++ [r.1] } r.2.1
        (t.1, t.2.1, r.2.2 ++ t.2.2)
      | Klass.leaf =>
        let r := scrape_section env l.url l subN chapN s
        match r.1 with
        | some (SecResult.content d) =>
          let t := chapLoop env subN chapN rest
            { acc with sections := acc.sections ++ [d] } r.2.1
          (t.1, t.2.1, r.2.2 ++ Event.append d.url :: t.2.2)
        | _ =>
          let t := chapLoop env subN chapN rest acc r.2.1
          (t.1, t.2.1, r.2.2 ++ t.2.2)
      | _ => chapLoop env subN chapN rest acc s

/-- `scrape_chapter`: pause check, fetch, links loop, then the chapter
summary write (the summary is written even when the loop broke on pause,
but not on the early returns). -/
def scrape_chapter (env : Env) (url : String) (info : LinkInfo)
    (subN : String) (s : SState) : ChapData × SState × List Event :=
  if shouldPause env s then (⟨info, none, none, none⟩, s, [])
  else
    match env.pages url with
    | none => (⟨info, none, none, none⟩, bump s, [Event.fetch url])
    | some p =>
      let t := chapLoop env subN info.title (extractLinks env p) ⟨[], [], []⟩ (bump s)
      let w := save_chapter_summary env subN info.title t.2.1
      (⟨info, some t.1.subchapters, some t.1.parts, some t.1.sections⟩,
        w.1, Event.fetch url :: t.2.2 ++ w.2)

/-- Return value of `scrape_subtitle` (children `none` on early return). -/
structure SubtitleData where
  info : LinkInfo
  chapters : Option (List ChapData)
deriving DecidableEq, Repr

/-- Links loop of `scrape_subtitle`: only `'Chapter' in title` children. -/
def subtitleLoop (env : Env) (subN : String) :
    List LinkInfo → List ChapData → SState → List ChapData × SState × List Event
  | [], acc, s => (acc, s, [])
  | l :: rest, acc, s =>
    if shouldPause env s then (acc, s, [])
    else if containsStr "Chapter" l.title then
      let r := scrape_chapter env l.url l subN s
      let t := subtitleLoop env subN rest (acc ++ [r.1]) r.2.1
      (t.1, t.2.1, r.2.2 ++ t.2.2)
    else subtitleLoop env subN rest acc s

/-- `scrape_subtitle`; the subtitle name passed down is its own title. -/
def scrape_subtitle (env : Env) (url : String) (info : LinkInfo)
    (s : SState) : SubtitleData × SState × List Event :=
  if shouldPause env s then (⟨info, none⟩, s, [])
  else
    match env.pages url with
    | none => (⟨info, none⟩, bump s, [Event.fetch url])
    | some p =>
      let t := subtitleLoop env info.title (extractLinks env p) [] (bump s)
      (⟨info, some t.1⟩, t.2.1, Event.fetch url :: t.2.2)

/-- One run of the retry loop of `_make_request`, at attempt granularity.
`outcome i` is the result of HTTP attempt `i` (`none` = a
`requests.RequestException`: timeout, connection error, or the non-2xx
raised by `raise_for_status`).  The first argument of the recursion is
the number of loop iterations left (`retries - attempt`).  Returns the
sleeps performed in order (seconds), the number of attempts made, and
the final result.  Before every attempt `self.delay` is slept
(rate limiting); after a failed attempt that is not the last,
`2 ** attempt` seconds are slept (exponential backoff). -/
def mrGo (delay : Nat) (outcome : Nat → Option Page) :
    Nat → Nat → List Nat × Nat × Option Page
  | 0, _ => ([], 0, none)
  | fuel + 1, attempt =>
    match outcome attempt with
    | some p => ([delay], 1, some p)
    | none =>
      if fuel = 0 then ([delay], 1, none)
      else
        let t := mrGo delay outcome fuel (attempt + 1)
        (delay :: 2 ^ attempt :: t.1, t.2.1 + 1, t.2.2)

/-- `_make_request(url, retries)`, abstracted over the per-attempt
outcomes of the HTTP GET for that URL. -/
def make_request (delay : Nat) (outcome : Nat → Option Page)
    (retries : Nat) : List Nat × Nat × Option Page :=
  mrGo delay outcome retries 0

/-- One public operation of the scraper, for reasoning about arbitrary
operation sequences (runs). -/
inductive Op where
  | leafOp (url : String) (info : LinkInfo) (subN chapN : String)
  | partOp (url : String) (info : LinkInfo) (subN chapN : String)
  | subchOp (url : String) (info : LinkInfo) (subN chapN : String)
  | chapOp (url : String) (info : LinkInfo) (subN : String)
  | subtitleOp (url : String) (info : LinkInfo)

/-- State effect of one operation. -/
def applyOp (env : Env) (s : SState) : Op → SState
  | Op.leafOp url info subN chapN => (scrape_section env url info subN chapN s).2.1
  | Op.partOp url info subN chapN => (scrape_part env url info subN chapN s).2.1
  | Op.subchOp url info subN chapN => (scrape_subchapter env url info subN chapN s).2.1
  | Op.chapOp url info subN => (scrape_chapter env url info subN s).2.1
  | Op.subtitleOp url info => (scrape_subtitle env url info s).2.1

/-- A sequence of operations within one process/run. -/
def runOps (env : Env) (ops : List Op) (s : SState) : SState :=
  ops.foldl (applyOp env) s

/-- Process startup: `__init__` creates an empty in-memory set and
`_load_progress` restores the persisted `scraper_progress.json` list. -/
def freshLoad (s : SState) : SState :=
  { s with completed := s.progressFile, time := 0 }

/-- One run against the checkpoint directory: startup load, then the
run's operations. -/
def runOnce (env : Env) (s : SState) (ops : List Op) : SState :=
  runOps env ops (freshLoad s)

/-- A sequence of runs against the same checkpoint directory. -/
def runSeq (env : Env) (runs : List (List Op)) (s : SState) : SState :=
  runs.foldl (runOnce env) s

/-- The URLs marked completed in an event list, newest first, on top of a
starting collection. -/
def collectMarks (m : List String) : List Event → List String
  | [] => m
  | Event.mark u :: r => collectMarks (u :: m) r
  | _ :: r => collectMarks m r

/-- Checks that every `append u` in the event list is preceded by a
`mark u` (or `u` is in the starting collection `m`): a tree append never
happens before the corresponding completion mark. -/
def marksBefore (m : List String) : List Event → Bool
  | [] => true
  | Event.mark u :: r => marksBefore (u :: m) r
  | Event.append u :: r => memB u m && marksBefore m r
  | _ :: r => marksBefore m r

/-- URLs fetched in an event list, in order. -/
def fetchUrls : List Event → List String
  | [] => []
  | Event.fetch u :: r => u :: fetchUrls r
  | _ :: r => fetchUrls r

/-- The fetches of a run that are initiated at or after the pause time:
the `i`-th fetch of a run starting at fetch-count `startTime` is issued
at fetch-count `startTime + i`, so these are the fetches issued while
the pause flag already reads true. -/
def fetchesAfterPause (pauseTime startTime : Nat) (evs : List Event) :
    List String :=
  (fetchUrls evs).drop (pauseTime - startTime)

/-- State invariant maintained by the scraper: the persisted set is
restored into (hence contained in) the in-memory set, and both are
duplicate-free (they model Python sets / JSON dumps of a set). -/
def inv (s : SState) : Prop :=
  s.progressFile ⊆ s.completed ∧ s.completed.Nodup ∧ s.progressFile.Nodup

/-- The title of the spec's classification-precedence example. -/
def crossRefTitle : String := "Part IV — Sec. Cross-Reference Index"

/-- First section URL of the end-to-end scenarios. -/
def secUrl1 : String := "https://irc.bloombergtax.com/public/uscode/doc/irc/section_1"

/-- Second section URL of the scenario. -/
def secUrl2 : String := "https://irc.bloombergtax.com/public/uscode/doc/irc/section_2"

/-- URL of the part unit of the scenario. -/
def partUrl : String := "https://irc.bloombergtax.com/public/uscode/toc/irc/part-i"

/-- URL of the subpart unit of the pause scenario. -/
def subpartUrl : String :=
  "https://irc.bloombergtax.com/public/uscode/toc/irc/part-ii/subpart-a"

/-- Third section URL (pause scenario). -/
def secUrl3 : String := "https://irc.bloombergtax.com/public/uscode/doc/irc/section_11"

/-- Fourth section URL (pause scenario). -/
def secUrl4 : String := "https://irc.bloombergtax.com/public/uscode/doc/irc/section_12"

/-- Part page of the end-to-end scenario: two direct section links. -/
def pageTwoSecs : Page :=
  ⟨[⟨"Sec. 1. Tax imposed", secUrl1⟩, ⟨"Sec. 2. Definitions", secUrl2⟩]⟩

/-- Part page of the pause scenario: a single subpart link. -/
def pageOneSubpart : Page := ⟨[⟨"Subpart A — General Rule", subpartUrl⟩]⟩

/-- Subpart page of the pause scenario: two section links. -/
def pageSubSecs : Page :=
  ⟨[⟨"Sec. 11. Corporations", secUrl3⟩, ⟨"Sec. 12. Cross references", secUrl4⟩]⟩

/-- Link info of the part unit of the end-to-end scenario. -/
def partInfoA : LinkInfo := ⟨"Part I — Tax on Individuals", partUrl, none⟩

/-- Environment of the end-to-end resume scenario (the spec's test for
claim C1): one part page with children `section_1` and `section_2`;
no pause. -/
def envA : Env where
  pages := fun u =>
    if u == partUrl then some pageTwoSecs
    else if u == secUrl1 || u == secUrl2 then some ⟨[]⟩
    else none
  secRange := fun _ => none
  numberOf := fun _ _ => "1"
  payload := fun u => u
  outputDir := "irc_data"
  pauseAt := none

/-- Starting state of the end-to-end scenario: `section_1` is already in
the CompletionSet. -/
def stateA : SState := ⟨[secUrl1], [secUrl1], [], 0⟩

/-- Environment of the pause scenario: a part with one subpart holding
two sections; the pause signal arrives once two fetches were issued,
i.e. during the processing of the subpart. -/
def envB : Env where
  pages := fun u =>
    if u == partUrl then some pageOneSubpart
    else if u == subpartUrl then some pageSubSecs
    else if u == secUrl3 || u == secUrl4 then some ⟨[]⟩
    else none
  secRange := fun _ => none
  numberOf := fun _ _ => "11"
  payload := fun u => u
  outputDir := "irc_data"
  pauseAt := some 2

/-- Empty starting state. -/
def state0 : SState := ⟨[], [], [], 0⟩

/-- Environment in which every fetch fails terminally. -/
def envNone : Env where
  pages := fun _ => none
  secRange := fun _ => none
  numberOf := fun _ _ => "1"
  payload := fun u => u
  outputDir := "irc_data"
  pauseAt := none

/-- Environment in which every page exists and is empty; paused from the
start (fetch count 0). -/
def envPaused : Env where
  pages := fun _ => some ⟨[]⟩
  secRange := fun _ => none
  numberOf := fun _ _ => "1"
  payload := fun u => u
  outputDir := "irc_data"
  pauseAt := some 0

/-! ### Bridge lemmas between the executable checks and propositions -/

theorem memB_iff {u : String} : ∀ {l : List String}, memB u l = true ↔ u ∈ l
  | [] => by simp [memB]
  | v :: r => by simp [memB, memB_iff (l := r)]

theorem memB_false_iff {u : String} {l : List String} :
    memB u l = false ↔ u ∉ l := by
  constructor
  · intro h hu
    rw [← memB_iff] at hu
    simp [h] at hu
  · intro h
    cases hb : memB u l with
    | false => rfl
    | true => exact absurd (memB_iff.1 hb) h

theorem fetchUrls_append : ∀ (d1 d2 : List Event),
    fetchUrls (d1 ++ d2) = fetchUrls d1 ++ fetchUrls d2
  | [], _ => rfl
  | e :: r, d2 => by
    cases e <;> simp [fetchUrls, fetchUrls_append r d2]

theorem collectMarks_supset {u : String} :
    ∀ (d : List Event) (m : List String), u ∈ m → u ∈ collectMarks m d
  | [], _, h => h
  | Event.fetch _ :: r, m, h => collectMarks_supset r m h
  | Event.skip _ :: r, m, h => collectMarks_supset r m h
  | Event.save _ :: r, m, h => collectMarks_supset r m h
  | Event.append _ :: r, m, h => collectMarks_supset r m h
  | Event.summary _ :: r, m, h => collectMarks_supset r m h
  | Event.mark v :: r, m, h =>
    collectMarks_supset r (v :: m) (List.mem_cons_of_mem v h)

theorem mark_mem_collectMarks {u : String} :
    ∀ (d : List Event) (m : List String), Event.mark u ∈ d → u ∈ collectMarks m d
  | Event.fetch _ :: r, m, h => mark_mem_collectMarks r m (by simpa using h)
  | Event.skip _ :: r, m, h => mark_mem_collectMarks r m (by simpa using h)
  | Event.save _ :: r, m, h => mark_mem_collectMarks r m (by simpa using h)
  | Event.append _ :: r, m, h => mark_mem_collectMarks r m (by simpa using h)
  | Event.summary _ :: r, m, h => mark_mem_collectMarks r m (by simpa using h)
  | Event.mark v :: r, m, h => by
    by_cases hv : u = v
    · exact collectMarks_supset r (v :: m) (by simp [hv])
    · exact mark_mem_collectMarks r (v :: m) (by simpa [hv] using h)

theorem marksBefore_append_eq : ∀ (d1 : List Event) (m : List String) (d2 : List Event),
    marksBefore m (d1 ++ d2) =
      (marksBefore m d1 && marksBefore (collectMarks m d1) d2)
  | [], m, d2 => by simp [marksBefore, collectMarks]
  | Event.fetch _ :: r, m, d2 => by
    simp [marksBefore, collectMarks, marksBefore_append_eq r m d2]
  | Event.skip _ :: r, m, d2 => by
    simp [marksBefore, collectMarks, marksBefore_append_eq r m d2]
  | Event.save _ :: r, m, d2 => by
    simp [marksBefore, collectMarks, marksBefore_append_eq r m d2]
  | Event.summary _ :: r, m, d2 => by
    simp [marksBefore, collectMarks, marksBefore_append_eq r m d2]
  | Event.mark v :: r, m, d2 => by
    simp [marksBefore, collectMarks, marksBefore_append_eq r (v :: m) d2]
  | Event.append v :: r, m, d2 => by
    simp [marksBefore, collectMarks, marksBefore_append_eq r m d2, Bool.and_assoc]

theorem marksBefore_mono : ∀ (d : List Event) (m m' : List String),
    (∀ u, u ∈ m → u ∈ m') → marksBefore m d = true → marksBefore m' d = true
  | [], _, _, _, _ => rfl
  | Event.fetch _ :: r, m, m', hs, h => marksBefore_mono r m m' hs h
  | Event.skip _ :: r, m, m', hs, h => marksBefore_mono r m m' hs h
  | Event.save _ :: r, m, m', hs, h => marksBefore_mono r m m' hs h
  | Event.summary _ :: r, m, m', hs, h => marksBefore_mono r m m' hs h
  | Event.mark v :: r, m, m', hs, h =>
    marksBefore_mono r (v :: m) (v :: m')
      (by
        intro u hu
        rcases List.mem_cons.1 hu with h1 | h1
        · simp [h1]
        · exact List.mem_cons_of_mem v (hs u h1)) h
  | Event.append v :: r, m, m', hs, h => by
    simp only [marksBefore, Bool.and_eq_true] at h ⊢
    exact ⟨memB_iff.2 (hs v (memB_iff.1 h.1)), marksBefore_mono r m m' hs h.2⟩

/-! ### The per-operation invariant -/

/-- What every scraper operation guarantees about its state change and
its event trace: the CompletionSet only grows; the persisted set only
grows and stays inside the in-memory set; duplicate-freedom is kept;
every marked and every appended URL is completed afterwards; and no
append happens before its own mark. -/
structure StepOK (s s' : SState) (d : List Event) : Prop where
  comp : s.completed ⊆ s'.completed
  prog : inv s → s.progressFile ⊆ s'.progressFile
  pinv : inv s → inv s'
  markM : ∀ u, Event.mark u ∈ d → u ∈ s'.completed
  appM : ∀ u, Event.append u ∈ d → u ∈ s'.completed
  mB : marksBefore [] d = true

theorem StepOK.comps {s s1 s2 : SState} {d1 d2 : List Event}
    (h1 : StepOK s s1 d1) (h2 : StepOK s1 s2 d2) :
    StepOK s s2 (d1 ++ d2) where
  comp := h1.comp.trans h2.comp
  prog := fun hi => (h1.prog hi).trans (h2.prog (h1.pinv hi))
  pinv := fun hi => h2.pinv (h1.pinv hi)
  markM := fun u hu => by
    rcases List.mem_append.1 hu with h | h
    · exact h2.comp (h1.markM u h)
    · exact h2.markM u h
  appM := fun u hu => by
    rcases List.mem_append.1 hu with h | h
    · exact h2.comp (h1.appM u h)
    · exact h2.appM u h
  mB := by
    rw [marksBefore_append_eq]
    simp only [Bool.and_eq_true]
    exact ⟨h1.mB, marksBefore_mono d2 [] _ (by simp) h2.mB⟩

/-- Composition across a leaf iteration: the events of the leaf call,
then the tree append of a URL already marked inside those events, then
the rest of the loop. -/
theorem StepOK.leafStep {s s1 s2 : SState} {d1 d2 : List Event} {u : String}
    (h1 : StepOK s s1 d1) (h2 : StepOK s1 s2 d2)
    (hm : Event.mark u ∈ d1) :
    StepOK s s2 (d1 ++ Event.append u :: d2) where
  comp := h1.comp.trans h2.comp
  prog := fun hi => (h1.prog hi).trans (h2.prog (h1.pinv hi))
  pinv := fun hi => h2.pinv (h1.pinv hi)
  markM := fun v hv => by
    rcases List.mem_append.1 hv with h | h
    · exact h2.comp (h1.markM v h)
    · rcases List.mem_cons.1 h with h | h
      · exact absurd h (by simp)
      · exact h2.markM v h
  appM := fun v hv => by
    rcases List.mem_append.1 hv with h | h
    · exact h2.comp (h1.appM v h)
    · rcases List.mem_cons.1 h with h | h
      · obtain rfl : v = u := by injection h
        exact h2.comp (h1.markM v hm)
      · exact h2.appM v h
  mB := by
    rw [marksBefore_append_eq]
    simp only [Bool.and_eq_true]
    refine ⟨h1.mB, ?_⟩
    simp only [marksBefore, Bool.and_eq_true]
    exact ⟨memB_iff.2 (mark_mem_collectMarks d1 [] hm),
      marksBefore_mono d2 [] _ (by simp) h2.mB⟩

/-- Operations that leave the CompletionSet and its persisted copy alone
and emit neither marks nor appends satisfy the invariant trivially. -/
theorem StepOK.silent {s s' : SState} {d : List Event}
    (hc : s'.completed = s.completed) (hp : s'.progressFile = s.progressFile)
    (hm : ∀ u, Event.mark u ∉ d) (ha : ∀ u, Event.append u ∉ d)
    (hb : marksBefore [] d = true) : StepOK s s' d where
  comp := by
    rw [hc]
    exact List.Subset.refl _
  prog := fun _ => by
    rw [hp]
    exact List.Subset.refl _
  pinv := fun hi => by
    rcases hi with ⟨h1, h2, h3⟩
    exact ⟨by rw [hc, hp]; exact h1, by rw [hc]; exact h2, by rw [hp]; exact h3⟩
  markM := fun u hu => absurd hu (hm u)
  appM := fun u hu => absurd hu (ha u)
  mB := hb

theorem markCompleted_eq_pos {url : String} {s : SState}
    (h : memB url s.completed = true) :
    markCompleted url s = { s with progressFile := s.completed } := by
  simp [markCompleted, h]

theorem markCompleted_eq_neg {url : String} {s : SState}
    (h : memB url s.completed = false) :
    markCompleted url s =
      { s with completed := s.completed ++ [url],
               progressFile := s.completed ++ [url] } := by
  simp [markCompleted, h]

theorem stepOK_rfl (s : SState) : StepOK s s [] :=
  StepOK.silent rfl rfl (by simp) (by simp) rfl

theorem stepOK_fetch (s : SState) (url : String) :
    StepOK s (bump s) [Event.fetch url] :=
  StepOK.silent rfl rfl (by simp) (by simp) rfl

theorem stepOK_skip (s : SState) (url : String) :
    StepOK s s [Event.skip url] :=
  StepOK.silent rfl rfl (by simp) (by simp) rfl

theorem markCompleted_mem (url : String) (s : SState) :
    url ∈ (markCompleted url s).completed := by
  by_cases h : memB url s.completed = true
  · rw [markCompleted_eq_pos h]
    exact memB_iff.1 h
  · rw [markCompleted_eq_neg (by simpa using h)]
    simp

theorem stepOK_markCompleted (url : String) (s : SState) :
    StepOK s (markCompleted url s) [Event.mark url] := by
  by_cases h : memB url s.completed = true
  · rw [markCompleted_eq_pos h]
    refine ⟨fun a ha => ha, fun hi => hi.1, fun hi => ⟨fun a ha => ha, hi.2.1, hi.2.1⟩,
      ?_, fun u hu => absurd hu (by simp), rfl⟩
    intro u hu
    obtain rfl : u = url := by simpa using hu
    exact memB_iff.1 h
  · have hf : memB url s.completed = false := by simpa using h
    have hno : url ∉ s.completed := memB_false_iff.1 hf
    rw [markCompleted_eq_neg hf]
    have hsub : s.completed ⊆ s.completed ++ [url] :=
      fun a ha => List.mem_append_left _ ha
    have hnodup : s.completed.Nodup → (s.completed ++ [url]).Nodup := by
      intro h2
      rw [List.nodup_append]
      refine ⟨h2, List.nodup_singleton url, ?_⟩
      intro a ha hb
      obtain rfl : a = url := by simpa using hb
      exact hno ha
    refine ⟨hsub, fun hi => hi.1.trans hsub,
      fun hi => ⟨fun a ha => ha, hnodup hi.2.1, hnodup hi.2.1⟩,
      ?_, fun u hu => absurd hu (by simp), rfl⟩
    intro u hu
    obtain rfl : u = url := by simpa using hu
    simp

theorem stepOK_save (p : String) (c : FileC) (s : SState) (q : String) :
    StepOK s (writeFile p c s) [Event.save q] :=
  StepOK.silent rfl rfl (by simp) (by simp) rfl

theorem stepOK_summary (p : String) (c : FileC) (s : SState) (q : String) :
    StepOK s (writeFile p c s) [Event.summary q] :=
  StepOK.silent rfl rfl (by simp) (by simp) rfl

theorem scrape_section_ok (env : Env) (url : String) (info : LinkInfo)
    (subN chapN : String) (s : SState) :
    StepOK s (scrape_section env url info subN chapN s).2.1
      (scrape_section env url info subN chapN s).2.2 := by
  unfold scrape_section
  by_cases hm : memB url s.completed = true
  · simp only [hm, if_true]
    exact stepOK_skip s url
  · simp only [hm, Bool.false_eq_true, if_false]
    cases hp : env.pages url with
    | none =>
      simp only
      exact stepOK_fetch s url
    | some p =>
      simp only
      by_cases hb : (subN != "" && chapN != "") = true
      · simp only [hb, if_true, save_section_file]
        exact ((stepOK_fetch s url).comps (stepOK_save _ _ _ _)).comps
          (stepOK_markCompleted url _)
      · simp only [hb, Bool.false_eq_true, if_false]
        exact (stepOK_fetch s url).comps (stepOK_markCompleted url _)

theorem scrape_section_content (env : Env) (url : String) (info : LinkInfo)
    (subN chapN : String) (s : SState) {d : SectionData}
    (h : (scrape_section env url info subN chapN s).1 =
      some (SecResult.content d)) :
    d.url = info.url ∧
      Event.mark url ∈ (scrape_section env url info subN chapN s).2.2 ∧
      url ∈ (scrape_section env url info subN chapN s).2.1.completed := by
  unfold scrape_section at h ⊢
  by_cases hm : memB url s.completed = true
  · simp [hm] at h
  · simp only [hm, Bool.false_eq_true, if_false] at h ⊢
    cases hp : env.pages url with
    | none => simp [hp] at h
    | some p =>
      rw [hp] at h
      simp only at h ⊢
      by_cases hb : (subN != "" && chapN != "") = true
      · simp only [hb, if_true, Option.some.injEq, SecResult.content.injEq] at h ⊢
        subst h
        exact ⟨rfl, by simp, markCompleted_mem url _⟩
      · simp only [hb, Bool.false_eq_true, if_false, Option.some.injEq,
          SecResult.content.injEq] at h ⊢
        subst h
        exact ⟨rfl, by simp, markCompleted_mem url _⟩

theorem subpartSections_ok (env : Env) (subN chapN : String) :
    ∀ (links : List LinkInfo) (acc : PartAcc) (s : SState),
    StepOK s (subpartSections env subN chapN links acc s).2.1
      (subpartSections env subN chapN links acc s).2.2
  | [], _, s => stepOK_rfl s
  | l :: rest, acc, s => by
    unfold subpartSections
    by_cases hl : isLeafLink l.title l.url = true
    · simp only [hl, if_true]
      cases hres : (scrape_section env l.url l subN chapN s).1 with
      | none =>
        simp only
        exact (scrape_section_ok env l.url l subN chapN s).comps
          (subpartSections_ok env subN chapN rest acc _)
      | some r =>
        cases r with
        | skipped u =>
          simp only
          exact (scrape_section_ok env l.url l subN chapN s).comps
            (subpartSections_ok env subN chapN rest acc _)
        | content d =>
          simp only
          have hc := scrape_section_content env l.url l subN chapN s hres
          rw [hc.1]
          exact StepOK.leafStep (scrape_section_ok env l.url l subN chapN s)
            (subpartSections_ok env subN chapN rest _ _) (hc.1 ▸ hc.2.1)
    · simp only [hl, Bool.false_eq_true, if_false]
      exact subpartSections_ok env subN chapN rest acc s

theorem partLoop_ok (env : Env) (subN chapN : String) :
    ∀ (links : List LinkInfo) (acc : PartAcc) (s : SState),
    StepOK s (partLoop env subN chapN links acc s).2.1
      (partLoop env subN chapN links acc s).2.2
  | [], _, s => stepOK_rfl s
  | l :: rest, acc, s => by
    unfold partLoop
    by_cases hp : shouldPause env s = true
    · simp only [hp, if_true]
      exact stepOK_rfl s
    · simp only [hp, Bool.false_eq_true, if_false]
      cases hc : classifyAtPart l.title l.url with
      | subpart =>
        simp only
        cases hpg : env.pages l.url with
        | none =>
          simp only
          exact (stepOK_fetch s l.url).comps (partLoop_ok env subN chapN rest acc _)
        | some p =>
          simp only
          exact ((stepOK_fetch s l.url).comps
            (subpartSections_ok env subN chapN (extractLinks env p) acc _)).comps
            (partLoop_ok env subN chapN rest _ _)
      | leaf =>
        simp only
        cases hres : (scrape_section env l.url l subN chapN s).1 with
        | none =>
          simp only
          exact (scrape_section_ok env l.url l subN chapN s).comps
            (partLoop_ok env subN chapN rest acc _)
        | some r =>
          cases r with
          | skipped u =>
            simp only
            exact (scrape_section_ok env l.url l subN chapN s).comps
              (partLoop_ok env subN chapN rest acc _)
          | content d =>
            simp only
            have hcc := scrape_section_content env l.url l subN chapN s hres
            rw [hcc.1]
            exact StepOK.leafStep (scrape_section_ok env l.url l subN chapN s)
              (partLoop_ok env subN chapN rest _ _) (hcc.1 ▸ hcc.2.1)
      | subch =>
        simp only
        exact partLoop_ok env subN chapN rest acc s
      | part =>
        simp only
        exact partLoop_ok env subN chapN rest acc s
      | other =>
        simp only
        exact partLoop_ok env subN chapN rest acc s

theorem scrape_part_ok (env : Env) (url : String) (info : LinkInfo)
    (subN chapN : String) (s : SState) :
    StepOK s (scrape_part env url info subN chapN s).2.1
      (scrape_part env url info subN chapN s).2.2 := by
  unfold scrape_part
  by_cases hp : shouldPause env s = true
  · simp only [hp, if_true]
    exact stepOK_rfl s
  · simp only [hp, Bool.false_eq_true, if_false]
    cases hpg : env.pages url with
    | none =>
      simp only
      exact stepOK_fetch s url
    | some p =>
      simp only
      exact (stepOK_fetch s url).comps
        (partLoop_ok env subN chapN (extractLinks env p) ⟨[], []⟩ (bump s))

theorem subchLoop_ok (env : Env) (subN chapN : String) :
    ∀ (links : List LinkInfo) (acc : SubchAcc) (s : SState),
    StepOK s (subchLoop env subN chapN links acc s).2.1
      (subchLoop env subN chapN links acc s).2.2
  | [], _, s => stepOK_rfl s
  | l :: rest, acc, s => by
    unfold subchLoop
    by_cases hp : shouldPause env s = true
    · simp only [hp, if_true]
      exact stepOK_rfl s
    · simp only [hp, Bool.false_eq_true, if_false]
      cases hc : classifyAtSubch l.title with
      | part =>
        simp only
        exact (scrape_part_ok env l.url l subN chapN s).comps
          (subchLoop_ok env subN chapN rest _ _)
      | leaf =>
        simp only
        cases hres : (scrape_section env l.url l subN chapN s).1 with
        | none =>
          simp only
          exact (scrape_section_ok env l.url l subN chapN s).comps
            (subchLoop_ok env subN chapN rest acc _)
        | some r =>
          cases r with
          | skipped u =>
            simp only
            exact (scrape_section_ok env l.url l subN chapN s).comps
              (subchLoop_ok env subN chapN rest acc _)
          | content d =>
            simp only
            have hcc := scrape_section_content env l.url l subN chapN s hres
            rw [hcc.1]
            exact StepOK.leafStep (scrape_section_ok env l.url l subN chapN s)
              (subchLoop_ok env subN chapN rest _ _) (hcc.1 ▸ hcc.2.1)
      | subch =>
        simp only
        exact subchLoop_ok env subN chapN rest acc s
      | subpart =>
        simp only
        exact subchLoop_ok env subN chapN rest acc s
      | other =>
        simp only
        exact subchLoop_ok env subN chapN rest acc s

theorem scrape_subchapter_ok (env : Env) (url : String) (info : LinkInfo)
    (subN chapN : String) (s : SState) :
    StepOK s (scrape_subchapter env url info subN chapN s).2.1
      (scrape_subchapter env url info subN chapN s).2.2 := by
  unfold scrape_subchapter
  by_cases hp : shouldPause env s = true
  · simp only [hp, if_true]
    exact stepOK_rfl s
  · simp only [hp, Bool.false_eq_true, if_false]
    cases hpg : env.pages url with
    | none =>
      simp only
      exact stepOK_fetch s url
    | some p =>
      simp only
      exact (stepOK_fetch s url).comps
        (subchLoop_ok env subN chapN (extractLinks env p) ⟨[], []⟩ (bump s))

theorem chapLoop_ok (env : Env) (subN chapN : String) :
    ∀ (links : List LinkInfo) (acc : ChapAcc) (s : SState),
    StepOK s (chapLoop env subN chapN links acc s).2.1
      (chapLoop env subN chapN links acc s).2.2
  | [], _, s => stepOK_rfl s
  | l :: rest, acc, s => by
    unfold chapLoop
    by_cases hp : shouldPause env s = true
    · simp only [hp, if_true]
      exact stepOK_rfl s
    · simp only [hp, Bool.false_eq_true, if_false]
      cases hc : classifyAtChapter l.title with
      | subch =>
        simp only
        exact (scrape_subchapter_ok env l.url l subN chapN s).comps
          (chapLoop_ok env subN chapN rest _ _)
      | part =>
        simp only
        exact (scrape_part_ok env l.url l subN chapN s).comps
          (chapLoop_ok env subN chapN rest _ _)
      | leaf =>
        simp only
        cases hres : (scrape_section env l.url l subN chapN s).1 with
        | none =>
          simp only
          exact (scrape_section_ok env l.url l subN chapN s).comps
            (chapLoop_ok env subN chapN rest acc _)
        | some r =>
          cases r with
          | skipped u =>
            simp only
            exact (scrape_section_ok env l.url l subN chapN s).comps
              (chapLoop_ok env subN chapN rest acc _)
          | content d =>
            simp only
            have hcc := scrape_section_content env l.url l subN chapN s hres
            rw [hcc.1]
            exact StepOK.leafStep (scrape_section_ok env l.url l subN chapN s)
              (chapLoop_ok env subN chapN rest _ _) (hcc.1 ▸ hcc.2.1)
      | subpart =>
        simp only
        exact chapLoop_ok env subN chapN rest acc s
      | other =>
        simp only
        exact chapLoop_ok env subN chapN rest acc s

theorem scrape_chapter_ok (env : Env) (url : String) (info : LinkInfo)
    (subN : String) (s : SState) :
    StepOK s (scrape_chapter env url info subN s).2.1
      (scrape_chapter env url info subN s).2.2 := by
  unfold scrape_chapter
  by_cases hp : shouldPause env s = true
  · simp only [hp, if_true]
    exact stepOK_rfl s
  · simp only [hp, Bool.false_eq_true, if_false]
    cases hpg : env.pages url with
    | none =>
      simp only
      exact stepOK_fetch s url
    | some p =>
      simp only [save_chapter_summary]
      exact ((stepOK_fetch s url).comps
        (chapLoop_ok env subN info.title (extractLinks env p) ⟨[], [], []⟩ (bump s))).comps
        (stepOK_summary _ _ _ _)

theorem subtitleLoop_ok (env : Env) (subN : String) :
    ∀ (links : List LinkInfo) (acc : List ChapData) (s : SState),
    StepOK s (subtitleLoop env subN links acc s).2.1
      (subtitleLoop env subN links acc s).2.2
  | [], _, s => stepOK_rfl s
  | l :: rest, acc, s => by
    unfold subtitleLoop
    by_cases hp : shouldPause env s = true
    · simp only [hp, if_true]
      exact stepOK_rfl s
    · simp only [hp, Bool.false_eq_true, if_false]
      by_cases hch : containsStr "Chapter" l.title = true
      · simp only [hch, if_true]
        exact (scrape_chapter_ok env l.url l subN s).comps
          (subtitleLoop_ok env subN rest _ _)
      · simp only [hch, Bool.false_eq_true, if_false]
        exact subtitleLoop_ok env subN rest acc s

theorem scrape_subtitle_ok (env : Env) (url : String) (info : LinkInfo)
    (s : SState) :
    StepOK s (scrape_subtitle env url info s).2.1
      (scrape_subtitle env url info s).2.2 := by
  unfold scrape_subtitle
  by_cases hp : shouldPause env s = true
  · simp only [hp, if_true]
    exact stepOK_rfl s
  · simp only [hp, Bool.false_eq_true, if_false]
    cases hpg : env.pages url with
    | none =>
      simp only
      exact stepOK_fetch s url
    | some p =>
      simp only
      exact (stepOK_fetch s url).comps
        (subtitleLoop_ok env info.title (extractLinks env p) [] (bump s))

theorem applyOp_ok (env : Env) (op : Op) (s : SState) :
    s.completed ⊆ (applyOp env s op).completed ∧
    (inv s → s.progressFile ⊆ (applyOp env s op).progressFile) ∧
    (inv s → inv (applyOp env s op)) := by
  cases op with
  | leafOp url info subN chapN =>
    have h := scrape_section_ok env url info subN chapN s
    exact ⟨h.comp, h.prog, h.pinv⟩
  | partOp url info subN chapN =>
    have h := scrape_part_ok env url info subN chapN s
    exact ⟨h.comp, h.prog, h.pinv⟩
  | subchOp url info subN chapN =>
    have h := scrape_subchapter_ok env url info subN chapN s
    exact ⟨h.comp, h.prog, h.pinv⟩
  | chapOp url info subN =>
    have h := scrape_chapter_ok env url info subN s
    exact ⟨h.comp, h.prog, h.pinv⟩
  | subtitleOp url info =>
    have h := scrape_subtitle_ok env url info s
    exact ⟨h.comp, h.prog, h.pinv⟩

theorem runOps_ok (env : Env) : ∀ (ops : List Op) (s : SState), inv s →
    s.completed ⊆ (runOps env ops s).completed ∧
    s.progressFile ⊆ (runOps env ops s).progressFile ∧
    inv (runOps env ops s)
  | [], _, hi => ⟨List.Subset.refl _, List.Subset.refl _, hi⟩
  | op :: rest, s, hi => by
    have h1 := applyOp_ok env op s
    have h2 := runOps_ok env rest (applyOp env s op) (h1.2.2 hi)
    exact ⟨h1.1.trans h2.1, (h1.2.1 hi).trans h2.2.1, h2.2.2⟩

theorem runSeq_ok (env : Env) : ∀ (runs : List (List Op)) (s : SState),
    s.progressFile.Nodup →
    s.progressFile ⊆ (runSeq env runs s).progressFile ∧
    (runSeq env runs s).progressFile.Nodup ∧
    s.progressFile.length ≤ (runSeq env runs s).progressFile.length
  | [], _, h => ⟨List.Subset.refl _, h, le_refl _⟩
  | ops :: rest, s, h => by
    have hi : inv (freshLoad s) := ⟨List.Subset.refl _, h, h⟩
    have h1 := runOps_ok env ops (freshLoad s) hi
    have hsub : s.progressFile ⊆ (runOnce env s ops).progressFile := h1.2.1
    have hnd : (runOnce env s ops).progressFile.Nodup := h1.2.2.2.2
    have h2 := runSeq_ok env rest (runOnce env s ops) hnd
    refine ⟨hsub.trans h2.1, h2.2.1, ?_⟩
    exact (List.subperm_of_subset h hsub).length_le.trans h2.2.2

/-! ### Claim theorems -/

/-- C3: `_make_request` with `retries = 3` on a URL whose every HTTP
attempt fails performs exactly 3 attempts and then returns `None`
(terminal failure, never an exception to the caller), sleeping the fixed
rate-limit delay before every attempt and a backoff delay of
`2**0 = base·1` then `2**1 = base·2` seconds between consecutive
attempts (doubling, no jitter). -/
theorem C3_retry_bound (delay : Nat) (outcome : Nat → Option Page)
    (h : ∀ i, outcome i = none) :
    make_request delay outcome 3 = ([delay, 1, delay, 2, delay], 3, none) := by
  simp [make_request, mrGo, h]

theorem C3_retry_bound_witness :
    make_request 1 (fun _ => none) 3 = ([1, 1, 1, 2, 1], 3, none) :=
  C3_retry_bound 1 (fun _ => none) (fun _ => rfl)

/-- C4: child-link classification is first-match-wins along the fixed
keyword order: at chapter level `"Subchapter"` is tested before
`"Part"` before `"Sec."`, at subchapter level `"Part"` before `"Sec."`,
and at part level `"Subpart"` before the leaf markers; in particular a
title containing both `"Part"` and `"Sec."` (such as
"Part IV — Sec. Cross-Reference Index") classifies as Part at the
chapter and subchapter levels, not as Section. -/
theorem C4_first_match_wins :
    (∀ t : String, containsStr "Part" t = true →
      containsStr "Subchapter" t = false → classifyAtChapter t = Klass.part) ∧
    (∀ t : String, containsStr "Part" t = true →
      classifyAtSubch t = Klass.part) ∧
    (∀ t u : String, containsStr "Subpart" t = true →
      classifyAtPart t u = Klass.subpart) ∧
    classifyAtChapter crossRefTitle = Klass.part ∧
    classifyAtSubch crossRefTitle = Klass.part ∧
    containsStr "Sec." crossRefTitle = true := by
  refine ⟨?_, ?_, ?_, by decide, by decide, by decide⟩
  · intro t h1 h2
    simp [classifyAtChapter, h1, h2]
  · intro t h1
    simp [classifyAtSubch, h1]
  · intro t u h1
    simp [classifyAtPart, h1]

theorem C4_first_match_wins_witness :
    containsStr "Part" crossRefTitle = true ∧
    containsStr "Subchapter" crossRefTitle = false ∧
    classifyAtChapter crossRefTitle = Klass.part ∧
    classifyAtSubch crossRefTitle = Klass.part ∧
    classifyAtPart "Subpart A — Foreign Corporations" secUrl1 = Klass.subpart :=
  ⟨by decide, by decide,
    C4_first_match_wins.1 crossRefTitle (by decide) (by decide),
    C4_first_match_wins.2.1 crossRefTitle (by decide),
    C4_first_match_wins.2.2.1 "Subpart A — Foreign Corporations" secUrl1 (by decide)⟩

/-- C6: at every non-leaf level, when the fetch of the unit's own page
fails terminally, the operation returns the unit's input metadata
unchanged (no children fields), performs nothing beyond that single
fetch, and leaves the state untouched except the fetch count; the
functions are total, so no exception reaches the parent loop and the
parent continues with the remaining siblings. -/
theorem C6_unit_fetch_failure (env : Env) (url : String) (info : LinkInfo)
    (subN chapN : String) (s : SState)
    (hp : shouldPause env s = false) (hf : env.pages url = none) :
    scrape_part env url info subN chapN s
      = (⟨info, none, none⟩, bump s, [Event.fetch url]) ∧
    scrape_subchapter env url info subN chapN s
      = (⟨info, none, none⟩, bump s, [Event.fetch url]) ∧
    scrape_chapter env url info subN s
      = (⟨info, none, none, none⟩, bump s, [Event.fetch url]) ∧
    scrape_subtitle env url info s
      = (⟨info, none⟩, bump s, [Event.fetch url]) := by
  refine ⟨?_, ?_, ?_, ?_⟩ <;>
    simp [scrape_part, scrape_subchapter, scrape_chapter, scrape_subtitle, hp, hf]

theorem C6_unit_fetch_failure_witness :
    shouldPause envNone state0 = false ∧ envNone.pages partUrl = none ∧
    scrape_part envNone partUrl partInfoA "Subtitle A" "Chapter 1" state0
      = (⟨partInfoA, none, none⟩, bump state0, [Event.fetch partUrl]) :=
  ⟨by decide, rfl,
    (C6_unit_fetch_failure envNone partUrl partInfoA "Subtitle A" "Chapter 1"
      state0 (by decide) rfl).1⟩

/-- C10: when the leaf fetch fails terminally for a not-yet-completed
section URL, `scrape_section` returns `None` and all observable state is
unchanged: the URL is not added to the CompletionSet, the progress file
is not rewritten and no section file is created (only the fetch count
advances), so a resumed run treats the leaf as not done and retries it. -/
theorem C10_leaf_fetch_failure (env : Env) (url : String) (info : LinkInfo)
    (subN chapN : String) (s : SState)
    (hm : memB url s.completed = false) (hf : env.pages url = none) :
    scrape_section env url info subN chapN s
      = (none, bump s, [Event.fetch url]) ∧
    (bump s).completed = s.completed ∧
    (bump s).progressFile = s.progressFile ∧
    (bump s).files = s.files := by
  refine ⟨?_, rfl, rfl, rfl⟩
  simp [scrape_section, hm, hf]

theorem C10_leaf_fetch_failure_witness :
    memB secUrl1 state0.completed = false ∧
    scrape_section envNone secUrl1 ⟨"Sec. 1. Tax imposed", secUrl1, none⟩
      "Subtitle A" "Chapter 1" state0
      = (none, bump state0, [Event.fetch secUrl1]) :=
  ⟨by decide,
    (C10_leaf_fetch_failure envNone secUrl1 ⟨"Sec. 1. Tax imposed", secUrl1, none⟩
      "Subtitle A" "Chapter 1" state0 (by decide) rfl).1⟩

/-- C5: for every not-yet-completed leaf processed with non-empty
subtitle and chapter names and a successful fetch, the section file is
written strictly before the URL is marked completed: the events are
exactly fetch, save, mark in that order, and in any decomposition of the
event list around the mark, the save lies before it — a leaf is never
recorded done before its file is written. -/
theorem C5_save_before_mark (env : Env) (url : String) (info : LinkInfo)
    (subN chapN : String) (s : SState) (pg : Page)
    (hm : memB url s.completed = false) (hf : env.pages url = some pg)
    (hs : (subN != "") = true) (hc : (chapN != "") = true) :
    (scrape_section env url info subN chapN s).2.2 =
      [Event.fetch url,
       Event.save (sectionPath env.outputDir subN chapN (env.numberOf url info.title)),
       Event.mark url] ∧
    ∀ t1 t2, (scrape_section env url info subN chapN s).2.2
        = t1 ++ Event.mark url :: t2 →
      Event.save (sectionPath env.outputDir subN chapN (env.numberOf url info.title))
        ∈ t1 := by
  have heq : (scrape_section env url info subN chapN s).2.2 =
      [Event.fetch url,
       Event.save (sectionPath env.outputDir subN chapN (env.numberOf url info.title)),
       Event.mark url] := by
    simp [scrape_section, hm, hf, hs, hc, save_section_file]
  refine ⟨heq, ?_⟩
  intro t1 t2 ht
  rw [heq] at ht
  rcases t1 with _ | ⟨a, _ | ⟨b, _ | ⟨c, t⟩⟩⟩ <;> simp_all

theorem C5_save_before_mark_witness :
    memB secUrl2 stateA.completed = false ∧
    (scrape_section envA secUrl2 ⟨"Sec. 2. Definitions", secUrl2, none⟩
      "Subtitle A" "Chapter 1" stateA).2.2 =
      [Event.fetch secUrl2,
       Event.save (sectionPath "irc_data" "Subtitle A" "Chapter 1" "1"),
       Event.mark secUrl2] :=
  ⟨by decide,
    (C5_save_before_mark envA secUrl2 ⟨"Sec. 2. Definitions", secUrl2, none⟩
      "Subtitle A" "Chapter 1" stateA ⟨[]⟩ (by decide) (by decide)
      (by decide) (by decide)).1⟩

/-- C2: the CompletionSet grows monotonically — within a run no
operation removes an element from it or from its persisted copy, and
across any sequence of runs against the same checkpoint directory
(each run reloading the persisted set at startup, each mark rewriting
it with the full set) the persisted set only gains elements and its
size is non-decreasing. -/
theorem C2_completion_monotone :
    (∀ (env : Env) (ops : List Op) (s : SState), inv s →
      s.completed ⊆ (runOps env ops s).completed ∧
      s.progressFile ⊆ (runOps env ops s).progressFile) ∧
    (∀ (env : Env) (runs : List (List Op)) (s : SState), s.progressFile.Nodup →
      s.progressFile ⊆ (runSeq env runs s).progressFile ∧
      s.progressFile.length ≤ (runSeq env runs s).progressFile.length) :=
  ⟨fun env ops s hi => ⟨(runOps_ok env ops s hi).1, (runOps_ok env ops s hi).2.1⟩,
   fun env runs s h => ⟨(runSeq_ok env runs s h).1, (runSeq_ok env runs s h).2.2⟩⟩

theorem C2_completion_monotone_witness :
    inv stateA ∧
    stateA.completed ⊆
      (runOps envA [Op.partOp partUrl partInfoA "Subtitle A" "Chapter 1"]
        stateA).completed ∧
    state0.progressFile.length ≤
      (runSeq envA [[Op.partOp partUrl partInfoA "Subtitle A" "Chapter 1"]]
        state0).progressFile.length := by
  have hi : inv stateA := ⟨List.Subset.refl _, by decide, by decide⟩
  exact ⟨hi,
    (C2_completion_monotone.1 envA
      [Op.partOp partUrl partInfoA "Subtitle A" "Chapter 1"] stateA hi).1,
    (C2_completion_monotone.2 envA
      [[Op.partOp partUrl partInfoA "Subtitle A" "Chapter 1"]] state0
      (by decide)).2⟩

/-- C7: every section appended to a `'sections'` list of the in-memory
tree by any hierarchy-level operation is already marked completed at the
moment it is appended (no append precedes its own mark in the event
order; skip markers are never appended), and it is still a member of the
CompletionSet when the operation returns. -/
theorem C7_tree_appends_completed :
    (∀ (env : Env) (url : String) (info : LinkInfo) (subN chapN : String)
      (s : SState),
      marksBefore [] (scrape_part env url info subN chapN s).2.2 = true ∧
      ∀ u, Event.append u ∈ (scrape_part env url info subN chapN s).2.2 →
        u ∈ (scrape_part env url info subN chapN s).2.1.completed) ∧
    (∀ (env : Env) (url : String) (info : LinkInfo) (subN chapN : String)
      (s : SState),
      marksBefore [] (scrape_subchapter env url info subN chapN s).2.2 = true ∧
      ∀ u, Event.append u ∈ (scrape_subchapter env url info subN chapN s).2.2 →
        u ∈ (scrape_subchapter env url info subN chapN s).2.1.completed) ∧
    (∀ (env : Env) (url : String) (info : LinkInfo) (subN : String)
      (s : SState),
      marksBefore [] (scrape_chapter env url info subN s).2.2 = true ∧
      ∀ u, Event.append u ∈ (scrape_chapter env url info subN s).2.2 →
        u ∈ (scrape_chapter env url info subN s).2.1.completed) ∧
    (∀ (env : Env) (url : String) (info : LinkInfo) (s : SState),
      marksBefore [] (scrape_subtitle env url info s).2.2 = true ∧
      ∀ u, Event.append u ∈ (scrape_subtitle env url info s).2.2 →
        u ∈ (scrape_subtitle env url info s).2.1.completed) :=
  ⟨fun env url info subN chapN s =>
    ⟨(scrape_part_ok env url info subN chapN s).mB,
     (scrape_part_ok env url info subN chapN s).appM⟩,
   fun env url info subN chapN s =>
    ⟨(scrape_subchapter_ok env url info subN chapN s).mB,
     (scrape_subchapter_ok env url info subN chapN s).appM⟩,
   fun env url info subN s =>
    ⟨(scrape_chapter_ok env url info subN s).mB,
     (scrape_chapter_ok env url info subN s).appM⟩,
   fun env url info s =>
    ⟨(scrape_subtitle_ok env url info s).mB,
     (scrape_subtitle_ok env url info s).appM⟩⟩

theorem C7_tree_appends_completed_witness :
    marksBefore []
      (scrape_part envA partUrl partInfoA "Subtitle A" "Chapter 1" stateA).2.2
      = true ∧
    secUrl2 ∈
      (scrape_part envA partUrl partInfoA "Subtitle A" "Chapter 1"
        stateA).2.1.completed :=
  ⟨(C7_tree_appends_completed.1 envA partUrl partInfoA "Subtitle A" "Chapter 1"
      stateA).1,
   (C7_tree_appends_completed.1 envA partUrl partInfoA "Subtitle A" "Chapter 1"
      stateA).2 secUrl2 (by decide)⟩

/-- C8 counterexample: in the pause scenario the signal arrives at fetch
count 2, during the processing of the subpart (after the part page and
the subpart page were fetched).  The inner loop of `scrape_part` over
the subpart's sections performs no pause check, so both section siblings
are still fetched — the 3rd and 4th fetches are initiated at fetch
counts 2 and 3, at or after the pause time — refuting the claim that the
flag is checked at the start of every sibling loop at every level and
that once set no further sibling unit begins processing. -/
theorem C8_counterexample :
    envB.pauseAt = some 2 ∧
    fetchUrls (scrape_part envB partUrl ⟨"Part II — Accounting", partUrl, none⟩
      "Subtitle A" "Chapter 1" state0).2.2
      = [partUrl, subpartUrl, secUrl3, secUrl4] ∧
    fetchesAfterPause 2 0
      (scrape_part envB partUrl ⟨"Part II — Accounting", partUrl, none⟩
        "Subtitle A" "Chapter 1" state0).2.2
      = [secUrl3, secUrl4] ∧
    fetchesAfterPause 2 0
      (scrape_part envB partUrl ⟨"Part II — Accounting", partUrl, none⟩
        "Subtitle A" "Chapter 1" state0).2.2 ≠ [] :=
  ⟨rfl, by decide, by decide, by decide⟩

/-- C8 (amended): the pause flag is checked at the entry of the four
level methods and at the start of each iteration of their direct
children loops — once it reads true there, no further direct sibling is
started and the call returns immediately with the partial results
collected so far; the inner loop over a subpart's sections in
`scrape_part` has no such check, so the remaining sections of the
current subpart are still processed after the flag is set. -/
theorem C8_pause_checks (env : Env) (s : SState) (url : String)
    (info : LinkInfo) (subN chapN : String) (links : List LinkInfo)
    (accP : PartAcc) (accS : SubchAcc) (accC : ChapAcc)
    (accT : List ChapData) (h : shouldPause env s = true) :
    scrape_part env url info subN chapN s = (⟨info, none, none⟩, s, []) ∧
    scrape_subchapter env url info subN chapN s = (⟨info, none, none⟩, s, []) ∧
    scrape_chapter env url info subN s = (⟨info, none, none, none⟩, s, []) ∧
    scrape_subtitle env url info s = (⟨info, none⟩, s, []) ∧
    partLoop env subN chapN links accP s = (accP, s, []) ∧
    subchLoop env subN chapN links accS s = (accS, s, []) ∧
    chapLoop env subN chapN links accC s = (accC, s, []) ∧
    subtitleLoop env subN links accT s = (accT, s, []) := by
  refine ⟨by simp [scrape_part, h], by simp [scrape_subchapter, h],
    by simp [scrape_chapter, h], by simp [scrape_subtitle, h],
    ?_, ?_, ?_, ?_⟩ <;>
  · cases links with
    | nil => simp [partLoop, subchLoop, chapLoop, subtitleLoop]
    | cons l rest => simp [partLoop, subchLoop, chapLoop, subtitleLoop, h]

theorem C8_pause_checks_witness :
    shouldPause envPaused state0 = true ∧
    scrape_part envPaused partUrl partInfoA "Subtitle A" "Chapter 1" state0
      = (⟨partInfoA, none, none⟩, state0, []) ∧
    partLoop envPaused "Subtitle A" "Chapter 1"
      [⟨"Sec. 1. Tax imposed", secUrl1, none⟩] ⟨[], []⟩ state0
      = (⟨[], []⟩, state0, []) :=
  ⟨by decide,
   (C8_pause_checks envPaused state0 partUrl partInfoA "Subtitle A" "Chapter 1"
     [⟨"Sec. 1. Tax imposed", secUrl1, none⟩] ⟨[], []⟩ ⟨[], []⟩ ⟨[], [], []⟩ []
     (by decide)).1,
   (C8_pause_checks envPaused state0 partUrl partInfoA "Subtitle A" "Chapter 1"
     [⟨"Sec. 1. Tax imposed", secUrl1, none⟩] ⟨[], []⟩ ⟨[], []⟩ ⟨[], [], []⟩ []
     (by decide)).2.2.2.2.1⟩

theorem mem_of_mem_dropWhile {α} {p : α → Bool} {b : α} :
    ∀ {l : List α}, b ∈ l.dropWhile p → b ∈ l := by
  intro l h
  induction l with
  | nil => simp at h
  | cons a t ih =>
    rw [List.dropWhile_cons] at h
    by_cases hp : p a = true
    · simp only [hp, if_true] at h
      exact List.mem_cons_of_mem a (ih h)
    · simp only [hp, Bool.false_eq_true, if_false] at h
      exact h

theorem mem_of_mem_stripWs {b : Char} {l : List Char}
    (h : b ∈ stripWs l) : b ∈ l := by
  unfold stripWs at h
  exact mem_of_mem_dropWhile
    (mem_of_mem_dropWhile (List.mem_reverse.1 h) |> List.mem_reverse.1)

/-- C9 counterexample: the code keeps underscores (the regex class `\w`
includes them) and strips leading/trailing whitespace before replacing
spaces, whereas the claim's rule ("remove every character that is not
alphanumeric, space, or hyphen; collapse spaces to underscores") would
drop the underscore and turn the leading space into an underscore; the
two disagree on the realistic name " Subtitle_A". -/
theorem C9_counterexample :
    sanitizeName " Subtitle_A" = "Subtitle_A" ∧
    sanitizeClaimed " Subtitle_A" = "_SubtitleA" ∧
    sanitizeName " Subtitle_A" ≠ sanitizeClaimed " Subtitle_A" :=
  ⟨by decide, by decide, by decide⟩

/-- C9 (amended): `_save_section_file` sanitises the subtitle and chapter
names by removing every character that is not a word character
(alphanumeric or underscore), whitespace, or hyphen, stripping leading
and trailing whitespace, replacing each remaining space with an
underscore, and truncating to 50 characters; it then writes the content
to `{output_dir}/{subtitle}/{chapter}/section_{number}.json` (creating
the directory path implicitly), overwriting any existing file at that
path and leaving every other path unchanged. -/
theorem C9_save_section_file (env : Env) (content : SectionData)
    (subN chapN num : String) (s : SState) :
    fsRead (sectionPath env.outputDir subN chapN num)
      (save_section_file env content subN chapN num s).1.files
      = some (FileC.sec content) ∧
    (∀ q, q ≠ sectionPath env.outputDir subN chapN num →
      fsRead q (save_section_file env content subN chapN num s).1.files
        = fsRead q s.files) ∧
    (save_section_file env content subN chapN num s).2
      = [Event.save (sectionPath env.outputDir subN chapN num)] ∧
    (∀ name : String, (sanitizeName name).data.length ≤ 50 ∧
      ∀ c ∈ (sanitizeName name).data, keepChar c = true ∧ c ≠ ' ') := by
  refine ⟨?_, ?_, rfl, ?_⟩
  · simp [save_section_file, writeFile, fsRead]
  · intro q hq
    have hb : ((sectionPath env.outputDir subN chapN num) == q) = false := by
      simp only [beq_eq_false_iff_ne, ne_eq]
      exact fun hh => hq hh.symm
    simp [save_section_file, writeFile, fsRead, hb]
  · intro name
    constructor
    · simp only [sanitizeName, cleanChars]
      exact List.length_take_le 50
        ((stripWs (name.data.filter keepChar)).map spaceToUnderscore)
    · intro c hc
      have hc1 : c ∈ (stripWs (name.data.filter keepChar)).map spaceToUnderscore :=
        List.mem_of_mem_take hc
      obtain ⟨b, hb, rfl⟩ := List.mem_map.1 hc1
      have hb2 : b ∈ name.data.filter keepChar := mem_of_mem_stripWs hb
      have hkb : keepChar b = true := (List.mem_filter.1 hb2).2
      by_cases hsp : b = ' '
      · subst hsp
        exact ⟨by decide, by decide⟩
      · have hbe : (b == ' ') = false := by
          simp only [beq_eq_false_iff_ne, ne_eq]
          exact hsp
        refine ⟨?_, ?_⟩ <;> simp [spaceToUnderscore, hbe, hkb, hsp]

theorem C9_save_section_file_witness :
    fsRead (sectionPath "irc_data" "Subtitle A" "Chapter 1" "1")
      (save_section_file envA ⟨"body", secUrl1, "Sec. 1. Tax imposed", none⟩
        "Subtitle A" "Chapter 1" "1" state0).1.files
      = some (FileC.sec ⟨"body", secUrl1, "Sec. 1. Tax imposed", none⟩) ∧
    fsRead "irc_data/other.json"
      (save_section_file envA ⟨"body", secUrl1, "Sec. 1. Tax imposed", none⟩
        "Subtitle A" "Chapter 1" "1" state0).1.files
      = fsRead "irc_data/other.json" state0.files :=
  ⟨(C9_save_section_file envA ⟨"body", secUrl1, "Sec. 1. Tax imposed", none⟩
      "Subtitle A" "Chapter 1" "1" state0).1,
   (C9_save_section_file envA ⟨"body", secUrl1, "Sec. 1. Tax imposed", none⟩
      "Subtitle A" "Chapter 1" "1" state0).2.1 "irc_data/other.json" (by decide)⟩

/-- C1: a section URL already in the CompletionSet is skipped by
`scrape_section` without any fetch — the skip marker
`{'skipped': True, 'url': u}` is returned and the state is untouched;
consequently, running the orchestrator (`scrape_part`) on a unit whose
two children are one completed and one uncompleted section issues
exactly the part-page fetch plus one fetch for the uncompleted child,
and produces a skip record for the completed one. -/
theorem C1_completed_skipped (env : Env) (s : SState) (info : LinkInfo)
    (url pu subN chapN : String) (l1 l2 : LinkInfo) (P P2 : Page)
    (hc : memB url s.completed = true)
    (hpause : env.pauseAt = none)
    (hpu : env.pages pu = some P)
    (hx : extractLinks env P = [l1, l2])
    (hk1 : classifyAtPart l1.title l1.url = Klass.leaf)
    (hk2 : classifyAtPart l2.title l2.url = Klass.leaf)
    (hm1 : memB l1.url s.completed = true)
    (hm2 : memB l2.url s.completed = false)
    (hp2 : env.pages l2.url = some P2) :
    scrape_section env url info subN chapN s
      = (some (SecResult.skipped url), s, [Event.skip url]) ∧
    fetchUrls (scrape_part env pu info subN chapN s).2.2 = [pu, l2.url] ∧
    Event.skip l1.url ∈ (scrape_part env pu info subN chapN s).2.2 := by
  have hsp : ∀ s' : SState, shouldPause env s' = false := by
    intro s'
    simp [shouldPause, hpause]
  have h1 : scrape_section env l1.url l1 subN chapN (bump s)
      = (some (SecResult.skipped l1.url), bump s, [Event.skip l1.url]) := by
    simp [scrape_section, bump, hm1]
  have h2r : (scrape_section env l2.url l2 subN chapN (bump s)).1
      = some (SecResult.content
          ⟨env.payload l2.url, l2.url, l2.title, l2.range⟩) := by
    by_cases hb : (subN != "" && chapN != "") = true <;>
      simp [scrape_section, bump, hm2, hp2, hb]
  refine ⟨by simp [scrape_section, hc], ?_, ?_⟩ <;>
  · by_cases hb : (subN != "" && chapN != "") = true
    · have h2e : (scrape_section env l2.url l2 subN chapN (bump s)).2.2
          = [Event.fetch l2.url,
             Event.save (sectionPath env.outputDir subN chapN
               (env.numberOf l2.url l2.title)),
             Event.mark l2.url] := by
        simp [scrape_section, bump, hm2, hp2, hb, save_section_file]
      simp only [scrape_part, hsp, Bool.false_eq_true, if_false, hpu, hx]
      simp only [partLoop, hsp, Bool.false_eq_true, if_false, hk1, hk2, h1,
        h2r, h2e]
      simp [fetchUrls, fetchUrls_append]
    · have h2e : (scrape_section env l2.url l2 subN chapN (bump s)).2.2
          = [Event.fetch l2.url, Event.mark l2.url] := by
        simp [scrape_section, bump, hm2, hp2, hb]
      simp only [scrape_part, hsp, Bool.false_eq_true, if_false, hpu, hx]
      simp only [partLoop, hsp, Bool.false_eq_true, if_false, hk1, hk2, h1,
        h2r, h2e]
      simp [fetchUrls, fetchUrls_append]

theorem C1_completed_skipped_witness :
    memB secUrl1 stateA.completed = true ∧
    memB secUrl2 stateA.completed = false ∧
    fetchUrls (scrape_part envA partUrl partInfoA "Subtitle A" "Chapter 1"
      stateA).2.2 = [partUrl, secUrl2] ∧
    Event.skip secUrl1 ∈ (scrape_part envA partUrl partInfoA "Subtitle A"
      "Chapter 1" stateA).2.2 := by
  have h := C1_completed_skipped envA stateA partInfoA secUrl1 partUrl
    "Subtitle A" "Chapter 1" ⟨"Sec. 1. Tax imposed", secUrl1, none⟩
    ⟨"Sec. 2. Definitions", secUrl2, none⟩ pageTwoSecs ⟨[]⟩
    (by decide) rfl (by decide) (by decide) (by decide) (by decide)
    (by decide) (by decide) (by decide)
  exact ⟨by decide, by decide, h.2.1, h.2.2⟩
